import Mathlib

/-!
Verification development for the inventory-and-sales tracking backend
(three product categories: shoes, bags, dresses; an append-only sales
ledger; dashboard analytics).

The stock-mutation endpoints and the dashboard aggregation code are
shallowly embedded below.  JavaScript request values are modelled by
`JsVal` (integers, strings, null, undefined) together with the loose
coercions the handlers rely on (`jsTruthy`, `jsToNumber`, `jsParseInt`);
JavaScript `Date`s are modelled at calendar-day precision by `JDate`
(Gregorian year / month / day) with the same day, month and year
arithmetic that `setDate`, `setMonth` and `setFullYear` perform,
including overflow of invalid day-of-month values into the next month.
Prices, stocks and quantities are integers (the handlers only ever work
with whole quantities; fractional values play no role in the claims).
The Mongo collection of `Sale` documents is modelled as a list to which
`save()` appends at the end; a product collection is a list of `Product`
records in which `save()` replaces the document with the matching id.
-/

namespace Inventory

/-- A JavaScript request value as far as the handlers inspect it:
an (integer) number, a string, `null`, or `undefined`. -/
inductive JsVal where
  | num (n : Int)
  | str (s : String)
  | nullv
  | undefv
deriving DecidableEq, Repr

/-- JavaScript truthiness: `0`, the empty string, `null` and `undefined`
are falsy, everything else here is truthy. -/
def jsTruthy : JsVal → Bool
  | .num n => decide (n ≠ 0)
  | .str s => decide (s ≠ "")
  | .nullv => false
  | .undefv => false

/-- Digits to their numeric value, most significant first. -/
def digitsToNat (cs : List Char) : Nat :=
  cs.foldl (fun acc c => acc * 10 + (c.toNat - 48)) 0

/-- The `Number(s)` coercion of a string, restricted to integer literals:
the empty string is `0`, a (possibly negated) digit string is its value,
anything else is NaN, modelled as `none`. -/
def jsStrToNumber (s : String) : Option Int :=
  if s = "" then some 0
  else
    match s.toList with
    | '-' :: rest =>
      if !rest.isEmpty && rest.all Char.isDigit then some (-(digitsToNat rest : Int)) else none
    | cs =>
      if cs.all Char.isDigit then some (digitsToNat cs) else none

/-- The `ToNumber` coercion applied when a `JsVal` meets an arithmetic
comparison: numbers are themselves, strings go through `Number(s)`,
`null` is `0`, `undefined` is NaN (`none`). -/
def jsToNumber : JsVal → Option Int
  | .num n => some n
  | .str s => jsStrToNumber s
  | .nullv => some 0
  | .undefv => none

/-- Longest leading digit run of a character list. -/
def leadingDigits : List Char → List Char
  | [] => []
  | c :: cs => if c.isDigit then c :: leadingDigits cs else []

/-- The `parseInt(v, 10)` coercion used by the bag/dress add-stock
handlers: the value is stringified and its longest leading (possibly
negated) digit run is parsed; no digits means NaN (`none`).
`parseInt(null)` and `parseInt(undefined)` are NaN. -/
def jsParseInt : JsVal → Option Int
  | .num n => some n
  | .str s =>
    match s.toList with
    | '-' :: rest =>
      let ds := leadingDigits rest
      if ds.isEmpty then none else some (-(digitsToNat ds : Int))
    | cs =>
      let ds := leadingDigits cs
      if ds.isEmpty then none else some (digitsToNat ds)
  | .nullv => none
  | .undefv => none

/-- The comparison `v <= 0` on a raw request value: both sides coerce to
numbers and any comparison against NaN is false. -/
def jsLe0 (v : JsVal) : Bool :=
  match jsToNumber v with
  | some n => decide (n ≤ 0)
  | none => false

/-- The comparison `stock < v` used by the insufficient-stock check;
false whenever `v` coerces to NaN. -/
def jsLtNum (stock : Int) (v : JsVal) : Bool :=
  match jsToNumber v with
  | some n => decide (stock < n)
  | none => false

/-- A calendar date (Gregorian year, month 1..12, day of month),
modelling a JavaScript `Date` at day precision. -/
structure JDate where
  year : Int
  month : Nat
  day : Nat
deriving DecidableEq, Repr

/-- Gregorian leap-year rule. -/
def isLeap (y : Int) : Bool :=
  (y % 4 == 0 && y % 100 != 0) || y % 400 == 0

/-- Number of days in a month. -/
def monthLen (y : Int) (m : Nat) : Nat :=
  if m = 2 then (if isLeap y then 29 else 28)
  else if m = 4 ∨ m = 6 ∨ m = 9 ∨ m = 11 then 30
  else 31

/-- The previous calendar day, as `setDate(getDate() - 1)` computes it. -/
def decDay (d : JDate) : JDate :=
  if 1 < d.day then { d with day := d.day - 1 }
  else if 1 < d.month then ⟨d.year, d.month - 1, monthLen d.year (d.month - 1)⟩
  else ⟨d.year - 1, 12, 31⟩

/-- The date `n` days earlier, as `setDate(getDate() - n)` computes it
on a valid date. -/
def subDays (d : JDate) : Nat → JDate
  | 0 => d
  | n + 1 => decDay (subDays d n)

/-- JavaScript date normalization: a day-of-month that exceeds the
length of its month rolls over into the following month (for the inputs
arising here a single roll suffices, since day ≤ 31 and every month has
at least 28 days). -/
def rollOverflow (y : Int) (m : Nat) (day : Nat) : JDate :=
  if day > monthLen y m then
    if m = 12 then ⟨y + 1, 1, day - monthLen y m⟩ else ⟨y, m + 1, day - monthLen y m⟩
  else ⟨y, m, day⟩

/-- The date one month earlier, as `setMonth(getMonth() - 1)` computes
it (the day of month is kept and an invalid result overflows forward,
for example March 30 minus one month is March 1 or 2 via February 30). -/
def subMonths1 (d : JDate) : JDate :=
  if d.month = 1 then rollOverflow (d.year - 1) 12 d.day
  else rollOverflow d.year (d.month - 1) d.day

/-- The date one year earlier, as `setFullYear(getFullYear() - 1)`
computes it (February 29 on a non-leap target year overflows to
March 1). -/
def subYears1 (d : JDate) : JDate :=
  rollOverflow (d.year - 1) d.month d.day

/-- Chronological comparison of dates (lexicographic on year, month,
day, which is chronological order for calendar dates). -/
def dateLeB (a b : JDate) : Bool :=
  if a.year < b.year then true
  else if b.year < a.year then false
  else if a.month < b.month then true
  else if b.month < a.month then false
  else decide (a.day ≤ b.day)

/-- Strict chronological comparison of dates. -/
def dateLtB (a b : JDate) : Bool :=
  if a.year < b.year then true
  else if b.year < a.year then false
  else if a.month < b.month then true
  else if b.month < a.month then false
  else decide (a.day < b.day)

/-- The ledger entry kinds of the `Sale` schema. -/
inductive SaleType where
  | add
  | deduct
deriving DecidableEq, Repr

/-- A catalog document (shared base fields of the three product
schemas; the free-text fields do not influence any claim but are kept
for fidelity). -/
structure Product where
  id : Nat
  name : String := ""
  color : String := ""
  description : String := ""
  stock : Int := 0
  price : Int := 0
deriving DecidableEq, Repr

/-- A `Sale` document.  The schema declares `name` and `price` but some
writers leave them unset, hence `Option`; the shoe-creation handler also
passes fields that are not in the schema (`revenue`, `action`) which
mongoose drops, so they are not modelled. -/
structure SaleEntry where
  productId : Nat
  category : String
  name : Option String := none
  quantity : Int
  price : Option Int := none
  total : Int
  type : SaleType
  date : JDate
deriving DecidableEq, Repr

/-- One category's catalog collection together with the shared sales
ledger collection. -/
structure State where
  products : List Product
  sales : List SaleEntry
deriving DecidableEq, Repr

/-- The outcome of a stock-mutation request.  `invalidQuantity` is the
400 response with message "Invalid quantity", `notFound` the 404,
`insufficientStock` the 400 with message "Not enough stock";
`nanWrite` marks the path on which a quantity that coerces to NaN has
passed every guard and the handler goes on to write NaN into the stock
field.  Error outcomes are returned before any write, so they leave the
store unchanged. -/
inductive OpOutcome where
  | ok (st : State)
  | invalidQuantity
  | notFound
  | insufficientStock
  | nanWrite
deriving DecidableEq, Repr

/-- `Model.findById`: first document with the given id. -/
def findById (ps : List Product) (pid : Nat) : Option Product :=
  ps.find? fun p => decide (p.id = pid)

/-- `doc.save()` on an existing document: replace the document with the
same id. -/
def saveDoc (ps : List Product) (doc : Product) : List Product :=
  ps.map fun r => if r.id = doc.id then doc else r

/-- Embeds POST /api/shoes/:id/deduct, /api/bags/:id/deduct and
/api/dresses/:id/deduct (the three handlers are identical up to the
category tag): guard `!quantity || quantity <= 0`, then `findById`,
then the check `stock < quantity`, then `stock -= quantity`, save, and
append one deduct ledger entry with the product's name and price and
`total = price * quantity`. -/
def deductStock (cat : String) (now : JDate) (st : State) (pid : Nat) (q : JsVal) : OpOutcome :=
  if !jsTruthy q || jsLe0 q then .invalidQuantity
  else
    match findById st.products pid with
    | none => .notFound
    | some p =>
      if jsLtNum p.stock q then .insufficientStock
      else
        match jsToNumber q with
        | none => .nanWrite
        | some n =>
          .ok ⟨saveDoc st.products { p with stock := p.stock - n },
               st.sales ++ [{ productId := p.id, category := cat, name := some p.name,
                              quantity := n, price := some p.price, total := p.price * n,
                              type := .deduct, date := now }]⟩

/-- Embeds POST /api/shoes/:id/add: guard `!quantity || quantity <= 0`
on the raw body value, then `findById`, then `stock += quantity`, save,
and append one add ledger entry with the product's name and price and
`total = price * quantity`. -/
def addGuardFirst (cat : String) (now : JDate) (st : State) (pid : Nat) (q : JsVal) : OpOutcome :=
  if !jsTruthy q || jsLe0 q then .invalidQuantity
  else
    match findById st.products pid with
    | none => .notFound
    | some p =>
      match jsToNumber q with
      | none => .nanWrite
      | some n =>
        .ok ⟨saveDoc st.products { p with stock := p.stock + n },
             st.sales ++ [{ productId := p.id, category := cat, name := some p.name,
                            quantity := n, price := some p.price, total := p.price * n,
                            type := .add, date := now }]⟩

/-- Embeds POST /api/bags/:id/add and /api/dresses/:id/add (identical
up to the category tag): `findById` first, then
`parseInt(req.body.quantity, 10)` and the guard
`!quantity || quantity <= 0`, then `stock += quantity`, save, and
append one add ledger entry with the product's name and price but
`total: 0` as the source writes it. -/
def addFindFirst (cat : String) (now : JDate) (st : State) (pid : Nat) (q : JsVal) : OpOutcome :=
  match findById st.products pid with
  | none => .notFound
  | some p =>
    match jsParseInt q with
    | none => .invalidQuantity
    | some n =>
      if n ≤ 0 then .invalidQuantity
      else
        .ok ⟨saveDoc st.products { p with stock := p.stock + n },
             st.sales ++ [{ productId := p.id, category := cat, name := some p.name,
                            quantity := n, price := some p.price, total := 0,
                            type := .add, date := now }]⟩

/-- Embeds POST /api/shoes (creation): insert the document and append
one add ledger entry; the entry carries `quantity: stock` and
`total: price * stock` but — as the source writes it — neither a `name`
nor a `price` field. -/
def createShoe (now : JDate) (st : State) (pid : Nat) (nm : String) (stock price : Int) : State :=
  { products := st.products ++ [{ id := pid, name := nm, stock := stock, price := price }],
    sales := st.sales ++ [{ productId := pid, category := "Shoes", name := none,
                            quantity := stock, price := none, total := price * stock,
                            type := .add, date := now }] }

/-- Embeds POST /api/bags and POST /api/dresses (creation, identical up
to the category tag): insert the document and append one add ledger
entry carrying the product's name, the unit price, `quantity: stock`
and `total: price * stock`. -/
def createBagOrDress (cat : String) (now : JDate) (st : State) (pid : Nat) (nm : String)
    (stock price : Int) : State :=
  { products := st.products ++ [{ id := pid, name := nm, stock := stock, price := price }],
    sales := st.sales ++ [{ productId := pid, category := cat, name := some nm,
                            quantity := stock, price := some price, total := price * stock,
                            type := .add, date := now }] }

/-- The store visible after an operation: the new state on success,
the unchanged one on any error response. -/
def stateAfter (st : State) : OpOutcome → State
  | .ok st' => st'
  | _ => st

/-! ## Analytics aggregator (GET /api/dashboard/stats, /sales-analytics)

The dashboard code builds plain JavaScript objects keyed by strings and
accumulates numbers (or pairs of numbers) under each key; that is
modelled by an insertion-ordered association list with an upsert that
updates a present key in place and appends an absent key at the end,
exactly as assignment to an object key behaves for the string keys
arising here. -/

section KeyedAccumulation

variable {α β : Type} [AddCommMonoid β]

/-- The object update `m[k] = (m[k] || 0) + b`: update the key in place
when present, append it when absent (JavaScript objects keep string keys
in insertion order). -/
def upsertAdd (k : String) (b : β) : List (String × β) → List (String × β)
  | [] => [(k, b)]
  | (k', v) :: rest => if k' = k then (k', v + b) :: rest else (k', v) :: upsertAdd k b rest

/-- Key lookup in an insertion-ordered object. -/
def lookupS (k : String) : List (String × β) → Option β
  | [] => none
  | (k', v) :: rest => if k' = k then some v else lookupS k rest

/-- A `forEach` loop accumulating `val a` under key `key a`. -/
def accumulateBy (key : α → String) (val : α → β) (l : List α)
    (m : List (String × β)) : List (String × β) :=
  l.foldl (fun m a => upsertAdd (key a) (val a) m) m

end KeyedAccumulation

/-- A stable insertion keeping `y` in front of the inserted `x`
whenever `keep y x` holds; `sortKeep` below folds it over the list,
which reproduces the result of JavaScript's stable `Array.sort` for a
comparator whose "stay in front" relation is `keep`. -/
def insertKeep {α : Type} (keep : α → α → Bool) (x : α) : List α → List α
  | [] => [x]
  | y :: ys => if keep y x then y :: insertKeep keep x ys else x :: y :: ys

/-- Stable sort by repeated insertion (models stable `Array.sort`). -/
def sortKeep {α : Type} (keep : α → α → Bool) (l : List α) : List α :=
  l.foldl (fun acc x => insertKeep keep x acc) []

/-- The object key a ledger entry's `name` field contributes: an unset
field is `undefined`, which stringifies to the object key "undefined". -/
def entryName (s : SaleEntry) : String :=
  s.name.getD "undefined"

/-- One point of the seven-day sales trend. -/
structure TrendPoint where
  date : JDate
  sales : Int
  revenue : Int
deriving DecidableEq, Repr

/-- Embeds the sales-trend loop of GET /api/dashboard/stats: for
i = 6 down to 0 a point for the day i days before today, with the
summed quantity and summed total of the deduct entries dated that day
(the loop's counter i corresponds to index k = 6 - i here). -/
def salesTrend (salesData : List SaleEntry) (today : JDate) : List TrendPoint :=
  (List.range 7).map fun k =>
    let d := subDays today (6 - k)
    let daySales := salesData.filter fun s => decide (s.date = d)
    { date := d,
      sales := (daySales.map (·.quantity)).sum,
      revenue := (daySales.map (·.total)).sum }

/-- The trend as the stats endpoint computes it, over the deduct
entries of the full ledger. -/
def dashboardSalesTrend (sales : List SaleEntry) (today : JDate) : List TrendPoint :=
  salesTrend (sales.filter fun s => decide (s.type = SaleType.deduct)) today

/-- One row of the top-selling ranking. -/
structure TopEntry where
  name : String
  quantity : Int
  revenue : Int
deriving DecidableEq, Repr

/-- Keep `y` (the earlier element) in front of `x` exactly when the
comparator `(a, b) => b.quantity - a.quantity` does not order `x`
strictly before `y`. -/
def keepDescQ (y x : TopEntry) : Bool :=
  decide (x.quantity ≤ y.quantity)

/-- One accumulated name mapped to its ranking row (the
`Object.entries(productSales).map(...)` step): the summed quantity
together with the summed totals of the deduct entries whose `name`
field strictly equals the key (`s.name === name`), so an entry with no
`name` field — accumulated under the object key "undefined" — never
matches and contributes no revenue. -/
def topRow (salesData : List SaleEntry) (p : String × Int) : TopEntry :=
  ⟨p.1, p.2, ((salesData.filter fun s => decide (s.name = some p.1)).map (·.total)).sum⟩

/-- Embeds the top-selling computation of GET /api/dashboard/stats:
quantities are accumulated per name over the deduct entries, each name
is annotated with the summed totals of its deduct entries, the rows are
stably sorted by descending quantity and the first five are kept. -/
def topSelling (sales : List SaleEntry) : List TopEntry :=
  let salesData := sales.filter fun s => decide (s.type = SaleType.deduct)
  let productSales := accumulateBy entryName (·.quantity) salesData []
  (sortKeep keepDescQ (productSales.map (topRow salesData))).take 5

/-- Keep the earlier entry in front when its date is not later
(`.sort((a, b) => date ascending)`, stable). -/
def keepDateAsc (y x : SaleEntry) : Bool :=
  dateLeB y.date x.date

/-- The switch on the period parameter of GET
/api/dashboard/sales-analytics: the start date is now minus 7 days for
"week", minus one month for "month", minus one year for "year", and the
default case of the switch also subtracts one month. -/
def periodStartDate (periodStr : String) (now : JDate) : JDate :=
  if periodStr = "week" then subDays now 7
  else if periodStr = "month" then subMonths1 now
  else if periodStr = "year" then subYears1 now
  else subMonths1 now

/-- Names `toLocaleString` short month names. -/
def monthShort (m : Nat) : String :=
  if m = 1 then "Jan" else if m = 2 then "Feb" else if m = 3 then "Mar"
  else if m = 4 then "Apr" else if m = 5 then "May" else if m = 6 then "Jun"
  else if m = 7 then "Jul" else if m = 8 then "Aug" else if m = 9 then "Sep"
  else if m = 10 then "Oct" else if m = 11 then "Nov" else "Dec"

/-- Renders the calendar-day key `date.toISOString().split('T')[0]`. -/
def isoDayKey (d : JDate) : String :=
  toString d.year ++ "-" ++ toString d.month ++ "-" ++ toString d.day

/-- The grouping key of the sales-analytics loop: the calendar day for
"week", the label `Week ceil(dayOfMonth / 7)` for "month", and the
short month name otherwise. -/
def bucketKey (periodStr : String) (d : JDate) : String :=
  if periodStr = "week" then isoDayKey d
  else if periodStr = "month" then "Week " ++ toString ((d.day + 6) / 7)
  else monthShort d.month

/-- The response of GET /api/dashboard/sales-analytics. -/
structure AnalyticsResult where
  period : String
  startDate : JDate
  endDate : JDate
  data : List (String × Int × Int)
deriving DecidableEq, Repr

/-- Embeds GET /api/dashboard/sales-analytics: the period defaults to
"month" when the query parameter is absent, a start date is computed by
the switch above, the deduct entries dated on or after it are fetched
sorted by ascending date, and each one accumulates its quantity and
total under its grouping key. -/
def salesAnalytics (periodOpt : Option String) (L : List SaleEntry) (now : JDate) :
    AnalyticsResult :=
  let periodStr := periodOpt.getD "month"
  let startDate := periodStartDate periodStr now
  let sales := sortKeep keepDateAsc
    (L.filter fun s => decide (s.type = SaleType.deduct) && dateLeB startDate s.date)
  { period := periodStr, startDate := startDate, endDate := now,
    data := accumulateBy (fun s => bucketKey periodStr s.date)
      (fun s => ((s.quantity, s.total) : Int × Int)) sales [] }

/-! ## Basic lemmas about the embedded operations -/

@[simp]
lemma jsToNumber_num (n : Int) : jsToNumber (.num n) = some n := rfl

@[simp]
lemma jsLe0_num (n : Int) : jsLe0 (.num n) = decide (n ≤ 0) := rfl

@[simp]
lemma jsLtNum_num (s n : Int) : jsLtNum s (.num n) = decide (s < n) := rfl

@[simp]
lemma jsParseInt_num (n : Int) : jsParseInt (.num n) = some n := rfl

/-- On an integer quantity the guard `!quantity || quantity <= 0`
holds exactly for non-positive values. -/
lemma num_guard (q : Int) : (!jsTruthy (JsVal.num q) || jsLe0 (JsVal.num q)) = decide (q ≤ 0) := by
  by_cases h : q = 0
  · subst h; rfl
  · simp [jsTruthy, h]

/-- A document returned by `findById` carries the requested id. -/
lemma findById_some_id {ps : List Product} {pid : Nat} {p : Product}
    (h : findById ps pid = some p) : p.id = pid := by
  have h2 := List.find?_some h
  simpa using h2

/-- Saving a document stored under an id `findById` resolves makes
`findById` return the saved document. -/
lemma findById_saveDoc {ps : List Product} {pid : Nat} {p doc : Product}
    (h : findById ps pid = some p) (hid : doc.id = pid) :
    findById (saveDoc ps doc) pid = some doc := by
  induction ps with
  | nil => simp [findById] at h
  | cons r rs ih =>
    by_cases hr : r.id = pid
    · have hrdoc : r.id = doc.id := by rw [hid, hr]
      simp [findById, saveDoc, hrdoc, hid]
    · have hrdoc : ¬ r.id = doc.id := by rw [hid]; exact hr
      simp only [findById, saveDoc, List.map_cons, if_neg hrdoc] at *
      rw [List.find?_cons_of_neg _ (by simpa using hr)] at h ⊢
      exact ih h

/-- Success characterization of the deduct handlers on an integer
quantity. -/
lemma deductStock_ok_iff {cat : String} {now : JDate} {st : State} {pid : Nat} {q : Int}
    {st' : State} :
    deductStock cat now st pid (.num q) = .ok st' ↔
      ∃ p, findById st.products pid = some p ∧ 0 < q ∧ q ≤ p.stock ∧
        st' = ⟨saveDoc st.products { p with stock := p.stock - q },
               st.sales ++ [⟨p.id, cat, some p.name, q, some p.price, p.price * q,
                             .deduct, now⟩]⟩ := by
  unfold deductStock
  rw [num_guard]
  simp only [jsLtNum_num, jsToNumber_num, decide_eq_true_eq]
  by_cases hq : q ≤ 0
  · rw [if_pos hq]
    constructor
    · intro h
      exact OpOutcome.noConfusion h
    · rintro ⟨p, -, hpos, -, -⟩
      exfalso
      omega
  · rw [if_neg hq]
    cases hfind : findById st.products pid with
    | none =>
      dsimp only
      constructor
      · intro h
        exact OpOutcome.noConfusion h
      · rintro ⟨p, hp, -⟩
        exact Option.noConfusion hp
    | some p =>
      dsimp only
      by_cases hlt : p.stock < q
      · rw [if_pos hlt]
        constructor
        · intro h
          exact OpOutcome.noConfusion h
        · rintro ⟨r, hr, -, hle, -⟩
          injection hr with h
          subst h
          exfalso
          omega
      · rw [if_neg hlt]
        constructor
        · intro h
          injection h with h
          exact ⟨p, rfl, by omega, by omega, h.symm⟩
        · rintro ⟨r, hr, -, -, rfl⟩
          injection hr with h
          subst h
          rfl

/-- Success characterization of the shoe add handler on an integer
quantity. -/
lemma addGuardFirst_ok_iff {cat : String} {now : JDate} {st : State} {pid : Nat} {q : Int}
    {st' : State} :
    addGuardFirst cat now st pid (.num q) = .ok st' ↔
      ∃ p, findById st.products pid = some p ∧ 0 < q ∧
        st' = ⟨saveDoc st.products { p with stock := p.stock + q },
               st.sales ++ [⟨p.id, cat, some p.name, q, some p.price, p.price * q,
                             .add, now⟩]⟩ := by
  unfold addGuardFirst
  rw [num_guard]
  simp only [jsToNumber_num, decide_eq_true_eq]
  by_cases hq : q ≤ 0
  · rw [if_pos hq]
    constructor
    · intro h
      exact OpOutcome.noConfusion h
    · rintro ⟨p, -, hpos, -⟩
      exfalso
      omega
  · rw [if_neg hq]
    cases hfind : findById st.products pid with
    | none =>
      dsimp only
      constructor
      · intro h
        exact OpOutcome.noConfusion h
      · rintro ⟨p, hp, -⟩
        exact Option.noConfusion hp
    | some p =>
      dsimp only
      constructor
      · intro h
        injection h with h
        exact ⟨p, rfl, by omega, h.symm⟩
      · rintro ⟨r, hr, -, rfl⟩
        injection hr with h
        subst h
        rfl

/-- Success characterization of the bag/dress add handlers on an
integer quantity. -/
lemma addFindFirst_ok_iff {cat : String} {now : JDate} {st : State} {pid : Nat} {q : Int}
    {st' : State} :
    addFindFirst cat now st pid (.num q) = .ok st' ↔
      ∃ p, findById st.products pid = some p ∧ 0 < q ∧
        st' = ⟨saveDoc st.products { p with stock := p.stock + q },
               st.sales ++ [⟨p.id, cat, some p.name, q, some p.price, 0, .add, now⟩]⟩ := by
  unfold addFindFirst
  cases hfind : findById st.products pid with
  | none =>
    dsimp only
    constructor
    · intro h
      exact OpOutcome.noConfusion h
    · rintro ⟨p, hp, -⟩
      exact Option.noConfusion hp
  | some p =>
    dsimp only [jsParseInt_num]
    by_cases hq : q ≤ 0
    · rw [if_pos hq]
      constructor
      · intro h
        exact OpOutcome.noConfusion h
      · rintro ⟨r, -, hpos, -⟩
        exfalso
        omega
    · rw [if_neg hq]
      constructor
      · intro h
        injection h with h
        exact ⟨p, rfl, by omega, h.symm⟩
      · rintro ⟨r, hr, -, rfl⟩
        injection hr with h
        subst h
        rfl

/-! ## Concrete sample data used by witnesses and counterexamples -/

/-- A sample catalog document with five units in stock at unit price
ten. -/
def sampleProduct : Product :=
  { id := 1, name := "Runner", stock := 5, price := 10 }

/-- A sample store holding just the sample product and an empty
ledger. -/
def sampleState : State :=
  ⟨[sampleProduct], []⟩

/-- A fixed current date. -/
def sampleDate : JDate :=
  ⟨2025, 1, 15⟩

/-! ## Claims about the stock mutation handlers -/

/-- C2: for every product and every positive integer quantity strictly
greater than the product's current stock, the deduct handler fails with
the insufficient-stock error and the store — stock and ledger — is
unchanged (the handler returns before any write). -/
theorem C2_insufficient_stock (cat : String) (now : JDate) (st : State) (pid : Nat)
    (q : Int) (p : Product) (hfind : findById st.products pid = some p)
    (hpos : 0 < q) (hgt : p.stock < q) :
    deductStock cat now st pid (.num q) = .insufficientStock ∧
    stateAfter st (deductStock cat now st pid (.num q)) = st := by
  have h : deductStock cat now st pid (.num q) = .insufficientStock := by
    unfold deductStock
    rw [num_guard]
    simp only [jsLtNum_num, jsToNumber_num, decide_eq_true_eq]
    rw [if_neg (by omega : ¬ q ≤ 0), hfind]
    dsimp only
    rw [if_pos hgt]
  exact ⟨h, by rw [h]; rfl⟩

/-- C2 witness: deducting seven from the sample product holding five
units fails with the insufficient-stock error and changes nothing. -/
theorem C2_insufficient_stock_witness :
    deductStock "Shoes" sampleDate sampleState 1 (.num 7) = .insufficientStock ∧
    stateAfter sampleState (deductStock "Shoes" sampleDate sampleState 1 (.num 7)) =
      sampleState :=
  C2_insufficient_stock "Shoes" sampleDate sampleState 1 7 sampleProduct rfl
    (by decide) (by decide)

/-- C3: every successful deduct, and every successful add on either add
path, appends exactly one new ledger entry — the ledger becomes the old
ledger plus one entry, so nothing else is created or modified — whose
productId is the product's id, whose quantity is the requested quantity
and whose type matches the operation. -/
theorem C3_one_ledger_entry (cat : String) (now : JDate) (st : State) (pid : Nat) (q : Int)
    (st' : State) :
    (deductStock cat now st pid (.num q) = .ok st' →
       ∃ p, findById st.products pid = some p ∧ p.id = pid ∧
         st'.sales = st.sales ++
           [⟨p.id, cat, some p.name, q, some p.price, p.price * q, .deduct, now⟩]) ∧
    (addGuardFirst cat now st pid (.num q) = .ok st' →
       ∃ p, findById st.products pid = some p ∧ p.id = pid ∧
         st'.sales = st.sales ++
           [⟨p.id, cat, some p.name, q, some p.price, p.price * q, .add, now⟩]) ∧
    (addFindFirst cat now st pid (.num q) = .ok st' →
       ∃ p, findById st.products pid = some p ∧ p.id = pid ∧
         st'.sales = st.sales ++
           [⟨p.id, cat, some p.name, q, some p.price, 0, .add, now⟩]) := by
  refine ⟨?_, ?_, ?_⟩
  · intro h
    obtain ⟨p, hfind, -, -, rfl⟩ := deductStock_ok_iff.mp h
    exact ⟨p, hfind, findById_some_id hfind, rfl⟩
  · intro h
    obtain ⟨p, hfind, -, rfl⟩ := addGuardFirst_ok_iff.mp h
    exact ⟨p, hfind, findById_some_id hfind, rfl⟩
  · intro h
    obtain ⟨p, hfind, -, rfl⟩ := addFindFirst_ok_iff.mp h
    exact ⟨p, hfind, findById_some_id hfind, rfl⟩

/-- C3 witness: a concrete successful deduct of three units appends
exactly the expected single deduct entry. -/
theorem C3_one_ledger_entry_witness :
    ∃ p, findById sampleState.products 1 = some p ∧ p.id = 1 ∧
      (⟨[{ id := 1, name := "Runner", stock := 2, price := 10 }],
        [{ productId := 1, category := "Shoes", name := some "Runner", quantity := 3,
           price := some 10, total := 30, type := .deduct, date := sampleDate }]⟩ : State).sales
        = sampleState.sales ++
          [⟨p.id, "Shoes", some p.name, 3, some p.price, p.price * 3, .deduct, sampleDate⟩] :=
  (C3_one_ledger_entry "Shoes" sampleDate sampleState 1 3 _).1 rfl

/-- C4 counterexample: adding three units to the sample product through
the bag add path succeeds, but the appended add entry records total 0,
not the unit price 10 times the quantity 3. -/
theorem C4_counterexample :
    addFindFirst "Bags" sampleDate sampleState 1 (.num 3) =
      .ok ⟨[{ id := 1, name := "Runner", stock := 8, price := 10 }],
           [{ productId := 1, category := "Bags", name := some "Runner", quantity := 3,
              price := some 10, total := 0, type := .add, date := sampleDate }]⟩ ∧
    (0 : Int) ≠ 10 * 3 :=
  ⟨rfl, by decide⟩

/-- C4 amended: a successful AddStock increments the product's stock by
the quantity in every category and appends one add ledger entry; the
entry's total is price times quantity on the shoe path but 0 on the
bag and dress path. -/
theorem C4_add_stock_amended (cat : String) (now : JDate) (st : State) (pid : Nat) (q : Int)
    (p : Product) (hfind : findById st.products pid = some p) (hq : 0 < q) :
    addGuardFirst cat now st pid (.num q) =
      .ok ⟨saveDoc st.products { p with stock := p.stock + q },
           st.sales ++ [⟨p.id, cat, some p.name, q, some p.price, p.price * q, .add, now⟩]⟩ ∧
    addFindFirst cat now st pid (.num q) =
      .ok ⟨saveDoc st.products { p with stock := p.stock + q },
           st.sales ++ [⟨p.id, cat, some p.name, q, some p.price, 0, .add, now⟩]⟩ ∧
    findById (saveDoc st.products { p with stock := p.stock + q }) pid =
      some { p with stock := p.stock + q } := by
  refine ⟨addGuardFirst_ok_iff.mpr ⟨p, hfind, hq, rfl⟩,
          addFindFirst_ok_iff.mpr ⟨p, hfind, hq, rfl⟩,
          findById_saveDoc hfind
            (show ({ p with stock := p.stock + q } : Product).id = pid from
              @findById_some_id st.products pid p hfind)⟩

/-- C4 amended witness at the sample store with quantity three. -/
theorem C4_add_stock_amended_witness :
    addGuardFirst "Shoes" sampleDate sampleState 1 (.num 3) =
      .ok ⟨saveDoc sampleState.products { sampleProduct with stock := sampleProduct.stock + 3 },
           sampleState.sales ++
             [⟨sampleProduct.id, "Shoes", some sampleProduct.name, 3, some sampleProduct.price,
               sampleProduct.price * 3, .add, sampleDate⟩]⟩ ∧
    addFindFirst "Shoes" sampleDate sampleState 1 (.num 3) =
      .ok ⟨saveDoc sampleState.products { sampleProduct with stock := sampleProduct.stock + 3 },
           sampleState.sales ++
             [⟨sampleProduct.id, "Shoes", some sampleProduct.name, 3, some sampleProduct.price,
               0, .add, sampleDate⟩]⟩ ∧
    findById (saveDoc sampleState.products { sampleProduct with stock := sampleProduct.stock + 3 }) 1 =
      some { sampleProduct with stock := sampleProduct.stock + 3 } :=
  C4_add_stock_amended "Shoes" sampleDate sampleState 1 3 sampleProduct rfl (by decide)

/-- C5 counterexample: creating a shoe appends a ledger entry that
records neither the product's name ("Air") nor its unit price (100) —
both fields are left unset. -/
theorem C5_counterexample :
    (createShoe sampleDate ⟨[], []⟩ 2 "Air" 10 100).sales =
      [{ productId := 2, category := "Shoes", name := none, quantity := 10, price := none,
         total := 1000, type := .add, date := sampleDate }] ∧
    (none : Option String) ≠ some "Air" ∧ (none : Option Int) ≠ some 100 :=
  ⟨rfl, by decide, by decide⟩

/-- C5 amended: bag and dress creation and every successful add or
deduct in any category denormalize the product's name and unit price
into the appended ledger entry; the shoe creation path appends its
entry with neither field set. -/
theorem C5_denormalized_amended (cat : String) (now : JDate) (st : State) (pid : Nat)
    (nm : String) (stock price q : Int) :
    ((createBagOrDress cat now st pid nm stock price).sales =
       st.sales ++ [⟨pid, cat, some nm, stock, some price, price * stock, .add, now⟩]) ∧
    ((createShoe now st pid nm stock price).sales =
       st.sales ++ [⟨pid, "Shoes", none, stock, none, price * stock, .add, now⟩]) ∧
    (∀ st', deductStock cat now st pid (.num q) = .ok st' →
       ∃ p e, findById st.products pid = some p ∧ st'.sales = st.sales ++ [e] ∧
         e.name = some p.name ∧ e.price = some p.price) ∧
    (∀ st', addGuardFirst cat now st pid (.num q) = .ok st' →
       ∃ p e, findById st.products pid = some p ∧ st'.sales = st.sales ++ [e] ∧
         e.name = some p.name ∧ e.price = some p.price) ∧
    (∀ st', addFindFirst cat now st pid (.num q) = .ok st' →
       ∃ p e, findById st.products pid = some p ∧ st'.sales = st.sales ++ [e] ∧
         e.name = some p.name ∧ e.price = some p.price) := by
  refine ⟨rfl, rfl, ?_, ?_, ?_⟩
  · intro st' h
    obtain ⟨p, hfind, -, -, rfl⟩ := deductStock_ok_iff.mp h
    exact ⟨p, _, hfind, rfl, rfl, rfl⟩
  · intro st' h
    obtain ⟨p, hfind, -, rfl⟩ := addGuardFirst_ok_iff.mp h
    exact ⟨p, _, hfind, rfl, rfl, rfl⟩
  · intro st' h
    obtain ⟨p, hfind, -, rfl⟩ := addFindFirst_ok_iff.mp h
    exact ⟨p, _, hfind, rfl, rfl, rfl⟩

/-- C5 amended witness: the deduct conjunct applied at a concrete
successful deduct. -/
theorem C5_denormalized_amended_witness :
    ∃ p e, findById sampleState.products 1 = some p ∧
      (⟨[{ id := 1, name := "Runner", stock := 2, price := 10 }],
        [{ productId := 1, category := "Shoes", name := some "Runner", quantity := 3,
           price := some 10, total := 30, type := .deduct, date := sampleDate }]⟩ : State).sales
        = sampleState.sales ++ [e] ∧ e.name = some p.name ∧ e.price = some p.price :=
  (C5_denormalized_amended "Shoes" sampleDate sampleState 1 "X" 0 0 3).2.2.1 _ rfl

/-- The quantities the deduct guard rejects: a value coercing to a
non-positive number (zero, a negative number, a numeric string with a
non-positive value, the empty string, null) or the falsy undefined. -/
def nonPositiveOrFalsyQuantity (v : JsVal) : Prop :=
  match jsToNumber v with
  | some n => n ≤ 0
  | none => v = .undefv

/-- C6 amended: for every product — existing or not — and every
quantity that is zero, negative, or falsy (empty string, null,
undefined), the deduct handler fails with the invalid-quantity error
before looking anything up, appends no ledger entry and changes no
stock; a truthy non-numeric string, by contrast, passes the guard (see
the counterexample). -/
theorem C6_invalid_quantity (cat : String) (now : JDate) (st : State) (pid : Nat) (q : JsVal)
    (hq : nonPositiveOrFalsyQuantity q) :
    deductStock cat now st pid q = .invalidQuantity ∧
    stateAfter st (deductStock cat now st pid q) = st := by
  have hguard : (!jsTruthy q || jsLe0 q) = true := by
    unfold nonPositiveOrFalsyQuantity at hq
    cases q with
    | num n =>
      simp only [jsToNumber] at hq
      by_cases h : n = 0
      · subst h; rfl
      · simp [jsTruthy, jsLe0, jsToNumber, h, hq]
    | str s =>
      cases hs : jsStrToNumber s with
      | some n =>
        simp only [jsToNumber, hs] at hq
        simp [jsLe0, jsToNumber, hs, hq]
      | none =>
        simp [jsToNumber, hs] at hq
    | nullv => rfl
    | undefv => rfl
  have h : deductStock cat now st pid q = .invalidQuantity := by
    unfold deductStock
    rw [if_pos hguard]
  exact ⟨h, by rw [h]; rfl⟩

/-- C6 amended witness: quantity zero is rejected with the
invalid-quantity error even though the id does not resolve. -/
theorem C6_invalid_quantity_witness :
    deductStock "Shoes" sampleDate sampleState 99 (.num 0) = .invalidQuantity ∧
    stateAfter sampleState (deductStock "Shoes" sampleDate sampleState 99 (.num 0)) =
      sampleState :=
  C6_invalid_quantity "Shoes" sampleDate sampleState 99 (.num 0)
    (by simp [nonPositiveOrFalsyQuantity, jsToNumber])

/-- C6 counterexample: the quantity "abc" is not a positive number,
yet the deduct handler does not fail with the invalid-quantity error —
the truthy non-numeric string passes the guard, every NaN comparison is
false, and the handler reaches the stock write. -/
theorem C6_counterexample :
    deductStock "Shoes" sampleDate sampleState 1 (.str "abc") ≠ .invalidQuantity := by
  decide

/-- The deduct guard holds for every quantity in the rejected set. -/
lemma guard_of_nonPositiveOrFalsy (q : JsVal) (hq : nonPositiveOrFalsyQuantity q) :
    (!jsTruthy q || jsLe0 q) = true := by
  unfold nonPositiveOrFalsyQuantity at hq
  cases q with
  | num n =>
    simp only [jsToNumber] at hq
    by_cases h : n = 0
    · subst h; rfl
    · simp [jsTruthy, jsLe0, jsToNumber, h, hq]
  | str s =>
    cases hs : jsStrToNumber s with
    | some n =>
      simp only [jsToNumber, hs] at hq
      simp [jsLe0, jsToNumber, hs, hq]
    | none =>
      simp [jsToNumber, hs] at hq
  | nullv => rfl
  | undefv => rfl

/-- C10 counterexample: for the quantity "abc" — not a positive
number — and an id that does not resolve, the deduct handler answers
not-found rather than the invalid-quantity error: the truthy
non-numeric string passes the guard and the lookup then fails. -/
theorem C10_counterexample :
    deductStock "Shoes" sampleDate sampleState 99 (.str "abc") = .notFound ∧
    OpOutcome.notFound ≠ OpOutcome.invalidQuantity :=
  ⟨by decide, by decide⟩

/-- C10 amended: the deduct handlers validate the quantity before the
lookup while the bag and dress add handlers look the product up first.
For a quantity the guard rejects — zero, a negative number (also as a
numeric string), the empty string, null or undefined — every deduct
handler answers the invalid-quantity error even when the id does not
resolve, whereas the same request on the bag or dress add path answers
not-found; a truthy quantity that coerces to NaN (a non-numeric
string) passes the deduct guard instead, so with an unresolvable id
the deduct handler also answers not-found. -/
theorem C10_error_check_order (now : JDate) (st : State) (pid : Nat) (q : JsVal)
    (hq : nonPositiveOrFalsyQuantity q) (hnf : findById st.products pid = none) :
    deductStock "Shoes" now st pid q = .invalidQuantity ∧
    deductStock "Bags" now st pid q = .invalidQuantity ∧
    deductStock "Dresses" now st pid q = .invalidQuantity ∧
    addFindFirst "Bags" now st pid q = .notFound ∧
    addFindFirst "Dresses" now st pid q = .notFound ∧
    (∀ q' : JsVal, jsToNumber q' = none → jsTruthy q' = true →
       deductStock "Shoes" now st pid q' = .notFound) := by
  have hd : ∀ c, deductStock c now st pid q = .invalidQuantity := by
    intro c
    unfold deductStock
    rw [if_pos (guard_of_nonPositiveOrFalsy q hq)]
  have ha : ∀ c, addFindFirst c now st pid q = .notFound := by
    intro c
    unfold addFindFirst
    rw [hnf]
  have hnan : ∀ q' : JsVal, jsToNumber q' = none → jsTruthy q' = true →
      deductStock "Shoes" now st pid q' = .notFound := by
    intro q' hnone htr
    unfold deductStock
    have hg : (!jsTruthy q' || jsLe0 q') = false := by
      simp [jsLe0, hnone, htr]
    rw [hg, if_neg Bool.false_ne_true, hnf]
  exact ⟨hd _, hd _, hd _, ha _, ha _, hnan⟩

/-! ## Sequences of successful stock operations (claim C1) -/

/-- One stock operation of a sequence, with its integer quantity. -/
inductive StockOp where
  | add (q : Int)
  | deduct (q : Int)
deriving DecidableEq, Repr

/-- Applies one operation through the corresponding handler (the
deduct handlers are identical across categories, and the two add paths
change stock identically, so the shoe handlers stand for all). -/
def applyOp (now : JDate) (pid : Nat) (st : State) : StockOp → OpOutcome
  | .add q => addGuardFirst "Shoes" now st pid (.num q)
  | .deduct q => deductStock "Shoes" now st pid (.num q)

/-- Runs a sequence of operations, requiring every one to succeed. -/
def runOps (now : JDate) (pid : Nat) (st : State) : List StockOp → Option State
  | [] => some st
  | op :: rest =>
    match applyOp now pid st op with
    | .ok st' => runOps now pid st' rest
    | _ => none

/-- Sum of the added quantities of a sequence. -/
def addSum (ops : List StockOp) : Int :=
  (ops.map fun op => match op with | .add q => q | .deduct _ => 0).sum

/-- Sum of the deducted quantities of a sequence. -/
def deductSum (ops : List StockOp) : Int :=
  (ops.map fun op => match op with | .add _ => 0 | .deduct q => q).sum

@[simp]
lemma addSum_nil : addSum [] = 0 := rfl

@[simp]
lemma addSum_cons_add (q : Int) (rest : List StockOp) :
    addSum (.add q :: rest) = q + addSum rest := by
  simp [addSum]

@[simp]
lemma addSum_cons_deduct (q : Int) (rest : List StockOp) :
    addSum (.deduct q :: rest) = addSum rest := by
  simp [addSum]

@[simp]
lemma deductSum_nil : deductSum [] = 0 := rfl

@[simp]
lemma deductSum_cons_add (q : Int) (rest : List StockOp) :
    deductSum (.add q :: rest) = deductSum rest := by
  simp [deductSum]

@[simp]
lemma deductSum_cons_deduct (q : Int) (rest : List StockOp) :
    deductSum (.deduct q :: rest) = q + deductSum rest := by
  simp [deductSum]

/-- Running a successful sequence tracks the product: it stays
resolvable under its id, its stock moves by the signed sum of the
quantities, and non-negative stock is preserved. -/
lemma runOps_spec (now : JDate) (pid : Nat) :
    ∀ (ops : List StockOp) (st : State) (p : Product),
      findById st.products pid = some p →
      ∀ st', runOps now pid st ops = some st' →
        ∃ p', findById st'.products pid = some p' ∧ p'.id = p.id ∧
          p'.stock = p.stock + addSum ops - deductSum ops ∧
          (0 ≤ p.stock → 0 ≤ p'.stock) := by
  intro ops
  induction ops with
  | nil =>
    intro st p hfind st' hrun
    injection hrun with hrun
    subst hrun
    exact ⟨p, hfind, rfl, by simp, fun h => h⟩
  | cons op rest ih =>
    intro st p hfind st' hrun
    simp only [runOps] at hrun
    split at hrun
    case _ st1 heq =>
      cases op with
      | add q =>
        obtain ⟨r, hr, hq, rfl⟩ := addGuardFirst_ok_iff.mp heq
        rw [hfind] at hr
        injection hr with hr
        subst hr
        have hfind1 : findById (saveDoc st.products { p with stock := p.stock + q }) pid =
            some { p with stock := p.stock + q } :=
          findById_saveDoc hfind
            (show ({ p with stock := p.stock + q } : Product).id = pid from
              @findById_some_id st.products pid p hfind)
        obtain ⟨p', h1, h2, h3, h4⟩ := ih _ _ hfind1 st' hrun
        refine ⟨p', h1, h2, by simp at h3 ⊢; omega, fun h0 => h4 (by simp; omega)⟩
      | deduct q =>
        obtain ⟨r, hr, hq, hle, rfl⟩ := deductStock_ok_iff.mp heq
        rw [hfind] at hr
        injection hr with hr
        subst hr
        have hfind1 : findById (saveDoc st.products { p with stock := p.stock - q }) pid =
            some { p with stock := p.stock - q } :=
          findById_saveDoc hfind
            (show ({ p with stock := p.stock - q } : Product).id = pid from
              @findById_some_id st.products pid p hfind)
        obtain ⟨p', h1, h2, h3, h4⟩ := ih _ _ hfind1 st' hrun
        refine ⟨p', h1, h2, by simp at h3 ⊢; omega, fun h0 => h4 (by simp; omega)⟩
    case _ h _ =>
      exact Option.noConfusion hrun

/-- Running a concatenation runs the two halves in order. -/
lemma runOps_append (now : JDate) (pid : Nat) :
    ∀ (l₁ l₂ : List StockOp) (st : State),
      runOps now pid st (l₁ ++ l₂) =
        (runOps now pid st l₁).bind fun s => runOps now pid s l₂ := by
  intro l₁
  induction l₁ with
  | nil =>
    intro l₂ st
    rfl
  | cons op rest ih =>
    intro l₂ st
    simp only [List.cons_append, runOps]
    cases applyOp now pid st op <;> simp [ih]

/-- C1: for every product and every sequence of successful operations
on its id, the final stock equals the initial stock plus the sum of the
added quantities minus the sum of the deducted quantities, and —
starting from non-negative stock — after every prefix of the sequence
the stock is still non-negative. -/
theorem C1_stock_invariant (now : JDate) (pid : Nat) (st : State) (ops : List StockOp)
    (st' : State) (p : Product) (hfind : findById st.products pid = some p)
    (hnn : 0 ≤ p.stock) (hrun : runOps now pid st ops = some st') :
    (∃ p', findById st'.products pid = some p' ∧
       p'.stock = p.stock + addSum ops - deductSum ops ∧ 0 ≤ p'.stock) ∧
    (∀ l₁ l₂, ops = l₁ ++ l₂ →
       ∃ stm pm, runOps now pid st l₁ = some stm ∧
         findById stm.products pid = some pm ∧ 0 ≤ pm.stock) := by
  constructor
  · obtain ⟨p', h1, -, h3, h4⟩ := runOps_spec now pid ops st p hfind st' hrun
    exact ⟨p', h1, h3, h4 hnn⟩
  · intro l₁ l₂ hsplit
    subst hsplit
    rw [runOps_append] at hrun
    cases hm : runOps now pid st l₁ with
    | none =>
      rw [hm] at hrun
      exact Option.noConfusion hrun
    | some stm =>
      obtain ⟨pm, hfm, -, -, hnn'⟩ := runOps_spec now pid l₁ st p hfind stm hm
      exact ⟨stm, pm, rfl, hfm, hnn' hnn⟩

/-- C1 witness: starting from five units, adding three and deducting
eight succeeds and ends at stock zero, with every prefix
non-negative. -/
theorem C1_stock_invariant_witness :
    (∃ p', findById (⟨[{ id := 1, name := "Runner", stock := 0, price := 10 }],
        [⟨1, "Shoes", some "Runner", 3, some 10, 30, .add, sampleDate⟩,
         ⟨1, "Shoes", some "Runner", 8, some 10, 80, .deduct, sampleDate⟩]⟩ : State).products 1
          = some p' ∧
       p'.stock = sampleProduct.stock + addSum [.add 3, .deduct 8]
           - deductSum [.add 3, .deduct 8] ∧
       0 ≤ p'.stock) ∧
    (∀ l₁ l₂, ([StockOp.add 3, StockOp.deduct 8] : List StockOp) = l₁ ++ l₂ →
       ∃ stm pm, runOps sampleDate 1 sampleState l₁ = some stm ∧
         findById stm.products 1 = some pm ∧ 0 ≤ pm.stock) :=
  C1_stock_invariant sampleDate 1 sampleState [.add 3, .deduct 8] _ sampleProduct rfl
    (by decide) rfl

/-- C10 amended witness: quantity zero against the unresolvable id 99
on all five paths, and the non-numeric "abc" on the deduct path. -/
theorem C10_error_check_order_witness :
    deductStock "Shoes" sampleDate sampleState 99 (.num 0) = .invalidQuantity ∧
    deductStock "Bags" sampleDate sampleState 99 (.num 0) = .invalidQuantity ∧
    deductStock "Dresses" sampleDate sampleState 99 (.num 0) = .invalidQuantity ∧
    addFindFirst "Bags" sampleDate sampleState 99 (.num 0) = .notFound ∧
    addFindFirst "Dresses" sampleDate sampleState 99 (.num 0) = .notFound ∧
    deductStock "Shoes" sampleDate sampleState 99 (.str "abc") = .notFound := by
  have h := C10_error_check_order sampleDate sampleState 99 (.num 0)
    (by simp [nonPositiveOrFalsyQuantity, jsToNumber]) rfl
  exact ⟨h.1, h.2.1, h.2.2.1, h.2.2.2.1, h.2.2.2.2.1,
    h.2.2.2.2.2 (.str "abc") (by decide) (by decide)⟩

/-! ## The seven-day sales trend (claim C7) -/

/-- Stepping a calendar day back always yields a chronologically
earlier date. -/
lemma dateLtB_decDay (d : JDate) : dateLtB (decDay d) d = true := by
  unfold decDay dateLtB
  by_cases h1 : 1 < d.day
  · simp [h1]
    omega
  · rw [if_neg h1]
    by_cases h2 : 1 < d.month
    · simp [h2]
      omega
    · simp [h2]

/-- The k-th trend point, for k < 7: the day 6 - k days before today
with the sums of the matching entries. -/
lemma salesTrend_getD (D : List SaleEntry) (today : JDate) (k : Nat) (hk : k < 7)
    (dflt : TrendPoint) :
    (salesTrend D today).getD k dflt =
      { date := subDays today (6 - k),
        sales := ((D.filter fun s => decide (s.date = subDays today (6 - k))).map
          (·.quantity)).sum,
        revenue := ((D.filter fun s => decide (s.date = subDays today (6 - k))).map
          (·.total)).sum } := by
  unfold salesTrend
  interval_cases k <;> rfl

/-- C7: the dashboard sales trend always has exactly 7 points; point k
is the calendar day 6 - k days before today, so the last point is
today, each point's date is the day before the next one's, dates
strictly increase, and a day with no deduct entry contributes a point
with sales 0 and revenue 0 rather than being omitted. -/
theorem C7_sales_trend (L : List SaleEntry) (today : JDate) :
    (dashboardSalesTrend L today).length = 7 ∧
    (∀ k, k < 7 → ((dashboardSalesTrend L today).getD k ⟨today, 0, 0⟩).date
        = subDays today (6 - k)) ∧
    ((dashboardSalesTrend L today).getD 6 ⟨today, 0, 0⟩).date = today ∧
    (∀ k, k < 6 →
       ((dashboardSalesTrend L today).getD k ⟨today, 0, 0⟩).date
          = decDay (((dashboardSalesTrend L today).getD (k + 1) ⟨today, 0, 0⟩).date) ∧
       dateLtB (((dashboardSalesTrend L today).getD k ⟨today, 0, 0⟩).date)
          (((dashboardSalesTrend L today).getD (k + 1) ⟨today, 0, 0⟩).date) = true) ∧
    (∀ k, k < 7 → (∀ s, s ∈ L → s.type = SaleType.deduct → s.date ≠ subDays today (6 - k)) →
       ((dashboardSalesTrend L today).getD k ⟨today, 0, 0⟩).sales = 0 ∧
       ((dashboardSalesTrend L today).getD k ⟨today, 0, 0⟩).revenue = 0) := by
  refine ⟨?_, ?_, ?_, ?_, ?_⟩
  · simp [dashboardSalesTrend, salesTrend]
  · intro k hk
    rw [dashboardSalesTrend, salesTrend_getD _ _ k hk]
  · rw [dashboardSalesTrend, salesTrend_getD _ _ 6 (by omega)]
    rfl
  · intro k hk
    rw [dashboardSalesTrend, salesTrend_getD _ _ k (by omega),
        salesTrend_getD _ _ (k + 1) (by omega)]
    have hsplit : 6 - k = (6 - (k + 1)) + 1 := by omega
    constructor
    · rw [hsplit]
      rfl
    · rw [hsplit]
      exact dateLtB_decDay _
  · intro k hk hno
    rw [dashboardSalesTrend, salesTrend_getD _ _ k hk]
    have hempty : ((L.filter fun s => decide (s.type = SaleType.deduct)).filter
        fun s => decide (s.date = subDays today (6 - k))) = [] := by
      rw [List.filter_eq_nil_iff]
      intro s hs
      rw [List.mem_filter] at hs
      simp only [decide_eq_true_eq]
      exact hno s hs.1 (by simpa using hs.2)
    rw [hempty]
    exact ⟨rfl, rfl⟩

/-- C7 witness: on the empty ledger the trend has 7 points, ends today
and reports zero for a day with no entries. -/
theorem C7_sales_trend_witness :
    (dashboardSalesTrend [] sampleDate).length = 7 ∧
    ((dashboardSalesTrend [] sampleDate).getD 6 ⟨sampleDate, 0, 0⟩).date = sampleDate ∧
    ((dashboardSalesTrend [] sampleDate).getD 0 ⟨sampleDate, 0, 0⟩).sales = 0 :=
  ⟨(C7_sales_trend [] sampleDate).1,
   (C7_sales_trend [] sampleDate).2.2.1,
   ((C7_sales_trend [] sampleDate).2.2.2.2 0 (by omega)
      (fun s hs _ => absurd hs (List.not_mem_nil s))).1⟩

/-! ## Object accumulation lemmas (for claims C8 and C9) -/

/-- The keys of an insertion-ordered object, in order. -/
def keysOf {γ : Type} (m : List (String × γ)) : List String := m.map Prod.fst

/-- The value a key holds after all matching elements were accumulated
onto it. -/
def sumValuesBy {α β : Type} [AddCommMonoid β] (key : α → String) (val : α → β)
    (l : List α) (k : String) : β :=
  ((l.filter fun a => decide (key a = k)).map val).sum

section KeyedAccumulationLemmas

variable {α β : Type} [AddCommMonoid β]

lemma lookupS_upsertAdd (m : List (String × β)) (k k' : String) (b : β) :
    lookupS k' (upsertAdd k b m) =
      if k' = k then some ((lookupS k m).getD 0 + b) else lookupS k' m := by
  induction m with
  | nil =>
    by_cases h : k' = k
    · subst h
      simp [upsertAdd, lookupS]
    · have h2 : ¬ k = k' := fun hh => h hh.symm
      simp [upsertAdd, lookupS, h, h2]
  | cons p rest ih =>
    obtain ⟨k₀, v₀⟩ := p
    by_cases h0 : k₀ = k
    · subst h0
      by_cases h : k' = k₀
      · subst h
        simp [upsertAdd, lookupS]
      · have h2 : ¬ k₀ = k' := fun hh => h hh.symm
        simp [upsertAdd, lookupS, h, h2]
    · by_cases h : k₀ = k'
      · subst h
        have h2 : ¬ k₀ = k := h0
        simp [upsertAdd, lookupS, h0, h2]
      · simp [upsertAdd, lookupS, h0, h, ih]

/-- Each key of the accumulated object holds the sum of the values of
the matching elements; a key no element maps to is absent. -/
lemma lookupS_accumulateBy (key : α → String) (val : α → β) :
    ∀ (l : List α) (m : List (String × β)) (k : String),
      lookupS k (accumulateBy key val l m) =
        match lookupS k m with
        | some v => some (v + sumValuesBy key val l k)
        | none =>
          if (l.filter fun a => decide (key a = k)).isEmpty then none
          else some (sumValuesBy key val l k) := by
  intro l
  induction l with
  | nil =>
    intro m k
    cases h : lookupS k m <;> simp [accumulateBy, sumValuesBy, h]
  | cons a rest ih =>
    intro m k
    have hstep : accumulateBy key val (a :: rest) m
        = accumulateBy key val rest (upsertAdd (key a) (val a) m) := rfl
    rw [hstep, ih, lookupS_upsertAdd]
    by_cases hk : k = key a
    · rw [if_pos hk]
      have hka : decide (key a = k) = true := by simp [hk]
      have hfil : (a :: rest).filter (fun x => decide (key x = k))
          = a :: rest.filter (fun x => decide (key x = k)) := by
        simp [List.filter_cons, hka]
      cases hm : lookupS k m with
      | some v =>
        have hm2 : lookupS (key a) m = some v := by rw [← hk]; exact hm
        rw [hm2]
        simp [sumValuesBy, hfil, add_assoc]
      | none =>
        have hm2 : lookupS (key a) m = none := by rw [← hk]; exact hm
        rw [hm2]
        simp [sumValuesBy, hfil]
    · rw [if_neg hk]
      have hka : decide (key a = k) = false := by
        simp only [decide_eq_false_iff_not]
        exact fun hh => hk hh.symm
      have hfil : (a :: rest).filter (fun x => decide (key x = k))
          = rest.filter (fun x => decide (key x = k)) := by
        simp [List.filter_cons, hka]
      cases hm : lookupS k m <;> simp [sumValuesBy, hfil]

lemma keysOf_upsertAdd (m : List (String × β)) (k : String) (b : β) :
    keysOf (upsertAdd k b m) = if k ∈ keysOf m then keysOf m else keysOf m ++ [k] := by
  induction m with
  | nil => simp [upsertAdd, keysOf]
  | cons p rest ih =>
    obtain ⟨k₀, v₀⟩ := p
    by_cases h : k₀ = k
    · subst h
      simp [upsertAdd, keysOf]
    · have h2 : ¬ k = k₀ := fun hh => h hh.symm
      simp only [upsertAdd, if_neg h]
      have hcons : ∀ (q : String × β) (l : List (String × β)),
          keysOf (q :: l) = q.1 :: keysOf l := fun q l => rfl
      rw [hcons, hcons, ih]
      by_cases hm : k ∈ keysOf rest
      · rw [if_pos hm, if_pos (List.mem_cons_of_mem _ hm)]
      · rw [if_neg hm, if_neg (by simp [List.mem_cons, h2, hm])]
        simp

lemma nodup_keysOf_upsertAdd (m : List (String × β)) (k : String) (b : β)
    (h : (keysOf m).Nodup) : (keysOf (upsertAdd k b m)).Nodup := by
  rw [keysOf_upsertAdd]
  by_cases hm : k ∈ keysOf m
  · rw [if_pos hm]
    exact h
  · rw [if_neg hm]
    simp [List.nodup_append, h, hm]

/-- Accumulation never introduces a duplicate key. -/
lemma nodup_keysOf_accumulateBy (key : α → String) (val : α → β) :
    ∀ (l : List α) (m : List (String × β)), (keysOf m).Nodup →
      (keysOf (accumulateBy key val l m)).Nodup := by
  intro l
  induction l with
  | nil =>
    intro m h
    exact h
  | cons a rest ih =>
    intro m h
    exact ih _ (nodup_keysOf_upsertAdd m (key a) (val a) h)

lemma lookupS_of_mem {γ : Type} (m : List (String × γ)) (k : String) (v : γ)
    (hnd : (keysOf m).Nodup) (hm : (k, v) ∈ m) : lookupS k m = some v := by
  induction m with
  | nil => cases hm
  | cons p rest ih =>
    obtain ⟨k₀, v₀⟩ := p
    simp only [keysOf, List.map_cons, List.nodup_cons] at hnd
    rcases List.mem_cons.mp hm with heq | hrest
    · injection heq with h1 h2
      subst h1
      subst h2
      simp [lookupS]
    · have hk : ¬ k₀ = k := by
        intro hh
        subst hh
        exact hnd.1 (List.mem_map.mpr ⟨(k₀, v), hrest, rfl⟩)
      simp only [lookupS, if_neg hk]
      exact ih hnd.2 hrest

end KeyedAccumulationLemmas

/-! ## Stable sort lemmas (for claims C8 and C9) -/

lemma insertKeep_perm {α : Type} (keep : α → α → Bool) (x : α) (l : List α) :
    List.Perm (insertKeep keep x l) (x :: l) := by
  induction l with
  | nil => rfl
  | cons y ys ih =>
    unfold insertKeep
    by_cases h : keep y x
    · rw [if_pos h]
      exact (ih.cons y).trans (List.Perm.swap x y ys)
    · rw [if_neg h]

lemma foldl_insertKeep_perm {α : Type} (keep : α → α → Bool) :
    ∀ (l acc : List α),
      List.Perm (l.foldl (fun acc x => insertKeep keep x acc) acc) (acc ++ l) := by
  intro l
  induction l with
  | nil =>
    intro acc
    simp
  | cons x xs ih =>
    intro acc
    have h1 : (x :: xs).foldl (fun acc x => insertKeep keep x acc) acc
        = xs.foldl (fun acc x => insertKeep keep x acc) (insertKeep keep x acc) := rfl
    rw [h1]
    refine (ih _).trans ?_
    refine (List.Perm.append_right xs (insertKeep_perm keep x acc)).trans ?_
    rw [List.cons_append]
    exact List.perm_middle.symm

/-- The stable sort is a permutation of its input. -/
lemma sortKeep_perm {α : Type} (keep : α → α → Bool) (l : List α) :
    List.Perm (sortKeep keep l) l := by
  simpa using foldl_insertKeep_perm keep l []

/-- Ranking rows in weakly descending quantity order. -/
def SortedDescQ (l : List TopEntry) : Prop :=
  l.Pairwise fun a b => b.quantity ≤ a.quantity

lemma insertKeep_sortedDescQ (x : TopEntry) (l : List TopEntry) (h : SortedDescQ l) :
    SortedDescQ (insertKeep keepDescQ x l) := by
  induction l with
  | nil =>
    simp [insertKeep, SortedDescQ]
  | cons y ys ih =>
    rcases List.pairwise_cons.mp h with ⟨hy, hys⟩
    unfold insertKeep
    by_cases hk : keepDescQ y x
    · rw [if_pos hk]
      have hxy : x.quantity ≤ y.quantity := by simpa [keepDescQ] using hk
      refine List.pairwise_cons.mpr ⟨?_, ih hys⟩
      intro z hz
      rcases List.mem_cons.mp ((insertKeep_perm keepDescQ x ys).mem_iff.mp hz) with rfl | hzys
      · exact hxy
      · exact hy z hzys
    · rw [if_neg hk]
      have hlt : y.quantity < x.quantity := by
        simpa [keepDescQ, not_le] using hk
      refine List.pairwise_cons.mpr ⟨?_, h⟩
      intro z hz
      rcases List.mem_cons.mp hz with rfl | hzys
      · omega
      · have := hy z hzys
        omega

lemma sortKeep_sortedDescQ (l : List TopEntry) : SortedDescQ (sortKeep keepDescQ l) := by
  suffices h : ∀ (l acc : List TopEntry), SortedDescQ acc →
      SortedDescQ (l.foldl (fun acc x => insertKeep keepDescQ x acc) acc) by
    exact h l [] (by simp [SortedDescQ])
  intro l
  induction l with
  | nil =>
    intro acc h
    exact h
  | cons x xs ih =>
    intro acc h
    exact ih _ (insertKeep_sortedDescQ x acc h)

lemma insertKeep_filter_quantity (x : TopEntry) (l : List TopEntry) (h : SortedDescQ l)
    (q : Int) :
    (insertKeep keepDescQ x l).filter (fun e => decide (e.quantity = q)) =
      if x.quantity = q then l.filter (fun e => decide (e.quantity = q)) ++ [x]
      else l.filter (fun e => decide (e.quantity = q)) := by
  induction l with
  | nil =>
    by_cases hx : x.quantity = q <;> simp [insertKeep, hx]
  | cons y ys ih =>
    rcases List.pairwise_cons.mp h with ⟨hy, hys⟩
    unfold insertKeep
    by_cases hk : keepDescQ y x
    · rw [if_pos hk]
      rw [List.filter_cons, List.filter_cons]
      rw [ih hys]
      by_cases hyq : y.quantity = q <;> by_cases hxq : x.quantity = q <;>
        simp [hyq, hxq]
    · rw [if_neg hk]
      have hlt : y.quantity < x.quantity := by
        simpa [keepDescQ, not_le] using hk
      by_cases hxq : x.quantity = q
      · have hempty : (y :: ys).filter (fun e => decide (e.quantity = q)) = [] := by
          rw [List.filter_eq_nil_iff]
          intro a ha
          simp only [decide_eq_true_eq]
          rcases List.mem_cons.mp ha with rfl | hays
          · omega
          · have := hy a hays
            omega
        rw [if_pos hxq, hempty, List.filter_cons]
        have h1 : decide (x.quantity = q) = true := by simp [hxq]
        rw [h1]
        simp [hempty]
      · rw [if_neg hxq, List.filter_cons]
        have h1 : decide (x.quantity = q) = false := by simp [hxq]
        simp [h1]

/-- Stability of the descending sort: the rows holding any fixed
quantity keep their relative order. -/
lemma sortKeep_filter_quantity (l : List TopEntry) (q : Int) :
    (sortKeep keepDescQ l).filter (fun e => decide (e.quantity = q)) =
      l.filter (fun e => decide (e.quantity = q)) := by
  suffices h : ∀ (l acc : List TopEntry), SortedDescQ acc →
      (l.foldl (fun acc x => insertKeep keepDescQ x acc) acc).filter
          (fun e => decide (e.quantity = q)) =
        acc.filter (fun e => decide (e.quantity = q)) ++
          l.filter (fun e => decide (e.quantity = q)) by
    simpa using h l [] (by simp [SortedDescQ])
  intro l
  induction l with
  | nil =>
    intro acc h
    simp
  | cons x xs ih =>
    intro acc h
    have h1 : (x :: xs).foldl (fun acc x => insertKeep keepDescQ x acc) acc
        = xs.foldl (fun acc x => insertKeep keepDescQ x acc) (insertKeep keepDescQ x acc) := rfl
    rw [h1, ih _ (insertKeep_sortedDescQ x acc h), insertKeep_filter_quantity x acc h q,
        List.filter_cons]
    by_cases hxq : x.quantity = q
    · simp [hxq]
    · simp [hxq]

/-- C8 amended: the top-selling ranking has at most 5 rows, sorted
weakly descending by quantity; rows with the same name are merged into
one — row names are pairwise distinct and each row's quantity is the
sum of the deduct quantities over all ledger entries sharing that name
(an unset name keyed as "undefined"); each row's revenue is the sum of
the totals of the deduct entries whose `name` field strictly equals
the row's name, so entries with no name contribute quantity but no
revenue; and the ranking is the 5-row prefix of the stable descending
sort of the accumulated rows, so ties keep their encounter order. -/
theorem C8_top_selling (sales : List SaleEntry) :
    (topSelling sales).length ≤ 5 ∧
    (topSelling sales).Pairwise (fun a b => b.quantity ≤ a.quantity) ∧
    ((topSelling sales).map (·.name)).Nodup ∧
    (∀ e, e ∈ topSelling sales →
       e.quantity = (((sales.filter fun s => decide (s.type = SaleType.deduct)).filter
           fun s => decide (entryName s = e.name)).map (·.quantity)).sum ∧
       e.revenue = (((sales.filter fun s => decide (s.type = SaleType.deduct)).filter
           fun s => decide (s.name = some e.name)).map (·.total)).sum) ∧
    (∃ full : List TopEntry, topSelling sales = full.take 5 ∧
       full.Pairwise (fun a b => b.quantity ≤ a.quantity) ∧
       (∀ q, full.filter (fun e => decide (e.quantity = q)) =
         ((accumulateBy entryName (·.quantity)
             (sales.filter fun s => decide (s.type = SaleType.deduct)) []).map
           (topRow (sales.filter fun s => decide (s.type = SaleType.deduct)))).filter
           (fun e => decide (e.quantity = q)))) := by
  set D := sales.filter fun s => decide (s.type = SaleType.deduct) with hD
  set psales := accumulateBy entryName (·.quantity) D [] with hps
  set rows := psales.map (topRow D) with hrows
  have htop : topSelling sales = (sortKeep keepDescQ rows).take 5 := rfl
  have hnodupkeys : (keysOf psales).Nodup :=
    nodup_keysOf_accumulateBy entryName (·.quantity) D [] (by simp [keysOf])
  have hnames : rows.map (·.name) = keysOf psales := by
    rw [hrows, List.map_map]
    rfl
  refine ⟨?_, ?_, ?_, ?_, ?_⟩
  · rw [htop, List.length_take]
    omega
  · rw [htop]
    exact List.Pairwise.sublist (List.take_sublist 5 _) (sortKeep_sortedDescQ rows)
  · have h1 : (rows.map (·.name)).Nodup := hnames ▸ hnodupkeys
    have h2 : ((sortKeep keepDescQ rows).map (·.name)).Nodup :=
      (((sortKeep_perm keepDescQ rows).map (·.name)).nodup_iff).mpr h1
    rw [htop, List.map_take]
    exact List.Nodup.sublist (List.take_sublist 5 _) h2
  · intro e he
    rw [htop] at he
    have he2 : e ∈ sortKeep keepDescQ rows := List.mem_of_mem_take he
    have he3 : e ∈ rows := (sortKeep_perm keepDescQ rows).mem_iff.mp he2
    rw [hrows] at he3
    obtain ⟨p, hpmem, heq⟩ := List.mem_map.mp he3
    obtain ⟨k, v⟩ := p
    have hlk : lookupS k psales = some v := lookupS_of_mem psales k v hnodupkeys hpmem
    have hlk2 := lookupS_accumulateBy entryName (fun s : SaleEntry => s.quantity) D [] k
    rw [← hps] at hlk2
    rw [hlk] at hlk2
    by_cases hemp : (D.filter fun a => decide (entryName a = k)).isEmpty
    · rw [if_pos hemp] at hlk2
      exact Option.noConfusion hlk2
    · rw [if_neg hemp] at hlk2
      injection hlk2 with hv
      subst heq
      constructor
      · rw [show (topRow D (k, v)).quantity = v from rfl, hv]
        rfl
      · rfl
  · exact ⟨sortKeep keepDescQ rows, htop, sortKeep_sortedDescQ rows,
      fun q => sortKeep_filter_quantity rows q⟩

/-- Concrete ledger for the merged-ranking scenario: two products both
named "Clutch" with 3 and 4 units sold, and one "Air" with 2. -/
def clutchSales : List SaleEntry :=
  [⟨1, "Bags", some "Clutch", 3, some 10, 30, .deduct, sampleDate⟩,
   ⟨2, "Bags", some "Clutch", 4, some 20, 80, .deduct, sampleDate⟩,
   ⟨3, "Shoes", some "Air", 2, some 5, 10, .deduct, sampleDate⟩]

/-- C8 witness: on the Clutch scenario the ranking merges the two
Clutch rows into one with quantity 7 = 3 + 4 and revenue 110. -/
theorem C8_top_selling_witness :
    (topSelling clutchSales).length ≤ 5 ∧
    ((⟨"Clutch", 7, 110⟩ : TopEntry).quantity =
      (((clutchSales.filter fun s => decide (s.type = SaleType.deduct)).filter
          fun s => decide (entryName s = (⟨"Clutch", 7, 110⟩ : TopEntry).name)).map
        (·.quantity)).sum ∧
     (⟨"Clutch", 7, 110⟩ : TopEntry).revenue =
      (((clutchSales.filter fun s => decide (s.type = SaleType.deduct)).filter
          fun s => decide (s.name = some (⟨"Clutch", 7, 110⟩ : TopEntry).name)).map
        (·.total)).sum) :=
  ⟨(C8_top_selling clutchSales).1,
   (C8_top_selling clutchSales).2.2.2.1 ⟨"Clutch", 7, 110⟩ (by decide)⟩

/-- C8 counterexample: a ledger whose single deduct entry (quantity 3,
total 30) has no `name` field is ranked as one "undefined" row whose
quantity is 3 but whose revenue is 0, not the matching entry's total
30 — the strict comparison `s.name === name` never matches an unset
name. -/
theorem C8_counterexample :
    topSelling [⟨1, "Shoes", none, 3, some 10, 30, .deduct, sampleDate⟩] =
      [⟨"undefined", 3, 0⟩] ∧ (0 : Int) ≠ 30 :=
  ⟨rfl, by decide⟩

/-! ## Sales analytics (claim C9) -/

/-- The ledger entries a sales-analytics bucket collects: deduct
entries dated on or after the period's start date whose grouping key is
the bucket's key. -/
def analyticsMatches (periodStr : String) (now : JDate) (k : String)
    (L : List SaleEntry) : List SaleEntry :=
  L.filter fun s =>
    decide (s.type = SaleType.deduct) && dateLeB (periodStartDate periodStr now) s.date &&
      decide (bucketKey periodStr s.date = k)

/-- Each bucket of the sales-analytics response accumulates exactly the
summed quantity and summed total of its matching deduct entries; a key
with no matching entry is absent. -/
lemma lookupS_salesAnalytics_data (periodOpt : Option String) (L : List SaleEntry)
    (now : JDate) (k : String) :
    lookupS k (salesAnalytics periodOpt L now).data =
      if (analyticsMatches (periodOpt.getD "month") now k L).isEmpty then none
      else some (((analyticsMatches (periodOpt.getD "month") now k L).map
        fun s => ((s.quantity, s.total) : Int × Int)).sum) := by
  have hdata : (salesAnalytics periodOpt L now).data =
      accumulateBy (fun s => bucketKey (periodOpt.getD "month") s.date)
        (fun s => ((s.quantity, s.total) : Int × Int))
        (sortKeep keepDateAsc (L.filter fun s =>
          decide (s.type = SaleType.deduct) &&
            dateLeB (periodStartDate (periodOpt.getD "month") now) s.date)) [] := rfl
  rw [hdata, lookupS_accumulateBy]
  simp only [lookupS]
  have hperm : List.Perm
      ((sortKeep keepDateAsc (L.filter fun s =>
          decide (s.type = SaleType.deduct) &&
            dateLeB (periodStartDate (periodOpt.getD "month") now) s.date)).filter
        (fun a => decide (bucketKey (periodOpt.getD "month") a.date = k)))
      ((L.filter fun s =>
          decide (s.type = SaleType.deduct) &&
            dateLeB (periodStartDate (periodOpt.getD "month") now) s.date).filter
        (fun a => decide (bucketKey (periodOpt.getD "month") a.date = k))) :=
    (sortKeep_perm keepDateAsc _).filter _
  have hquery : ((L.filter fun s =>
        decide (s.type = SaleType.deduct) &&
          dateLeB (periodStartDate (periodOpt.getD "month") now) s.date).filter
      (fun a => decide (bucketKey (periodOpt.getD "month") a.date = k)))
      = analyticsMatches (periodOpt.getD "month") now k L := by
    unfold analyticsMatches
    rw [List.filter_filter]
    exact List.filter_congr fun a ha => Bool.and_comm _ _
  rw [hquery] at hperm
  have hempt : ((sortKeep keepDateAsc (L.filter fun s =>
        decide (s.type = SaleType.deduct) &&
          dateLeB (periodStartDate (periodOpt.getD "month") now) s.date)).filter
      (fun a => decide (bucketKey (periodOpt.getD "month") a.date = k))).isEmpty
      = (analyticsMatches (periodOpt.getD "month") now k L).isEmpty := by
    have hlen := hperm.length_eq
    cases hA : ((sortKeep keepDateAsc (L.filter fun s =>
        decide (s.type = SaleType.deduct) &&
          dateLeB (periodStartDate (periodOpt.getD "month") now) s.date)).filter
      (fun a => decide (bucketKey (periodOpt.getD "month") a.date = k))) <;>
      cases hB : analyticsMatches (periodOpt.getD "month") now k L <;> simp_all
  have hsum : sumValuesBy (fun s => bucketKey (periodOpt.getD "month") s.date)
      (fun s => ((s.quantity, s.total) : Int × Int))
      (sortKeep keepDateAsc (L.filter fun s =>
        decide (s.type = SaleType.deduct) &&
          dateLeB (periodStartDate (periodOpt.getD "month") now) s.date)) k
      = ((analyticsMatches (periodOpt.getD "month") now k L).map
          fun s => ((s.quantity, s.total) : Int × Int)).sum := by
    unfold sumValuesBy
    exact (hperm.map _).sum_eq
  rw [hempt, hsum]

lemma periodStartDate_week (now : JDate) : periodStartDate "week" now = subDays now 7 := by
  unfold periodStartDate
  rw [if_pos rfl]

lemma periodStartDate_month (now : JDate) : periodStartDate "month" now = subMonths1 now := by
  unfold periodStartDate
  rw [if_neg (by decide), if_pos rfl]

lemma periodStartDate_year (now : JDate) : periodStartDate "year" now = subYears1 now := by
  unfold periodStartDate
  rw [if_neg (by decide), if_neg (by decide), if_pos rfl]

/-- C9: the sales-analytics endpoint defaults the period to "month";
its start date is now minus 7 days for "week", minus one month for
"month" (and for the absent parameter), minus one year for "year"; and
every bucket of its data holds exactly the summed quantity and summed
revenue of the deduct entries dated on or after that start date whose
grouping key — the calendar day for "week", the week-of-month label for
"month", the month name for "year" — is the bucket's key, days or
labels with no matching entry being absent. -/
theorem C9_sales_analytics (periodOpt : Option String) (L : List SaleEntry) (now : JDate) :
    (salesAnalytics periodOpt L now).period = periodOpt.getD "month" ∧
    (salesAnalytics periodOpt L now).endDate = now ∧
    (periodOpt = some "week" → (salesAnalytics periodOpt L now).startDate = subDays now 7) ∧
    ((periodOpt = none ∨ periodOpt = some "month") →
       (salesAnalytics periodOpt L now).startDate = subMonths1 now) ∧
    (periodOpt = some "year" → (salesAnalytics periodOpt L now).startDate = subYears1 now) ∧
    (∀ k, lookupS k (salesAnalytics periodOpt L now).data =
       if (analyticsMatches (periodOpt.getD "month") now k L).isEmpty then none
       else some (((analyticsMatches (periodOpt.getD "month") now k L).map
         fun s => ((s.quantity, s.total) : Int × Int)).sum)) := by
  have hsd : (salesAnalytics periodOpt L now).startDate
      = periodStartDate (periodOpt.getD "month") now := rfl
  refine ⟨rfl, rfl, ?_, ?_, ?_, ?_⟩
  · rintro rfl
    rw [hsd]
    exact periodStartDate_week now
  · rintro (rfl | rfl)
    · rw [hsd]
      exact periodStartDate_month now
    · rw [hsd]
      exact periodStartDate_month now
  · rintro rfl
    rw [hsd]
    exact periodStartDate_year now
  · intro k
    exact lookupS_salesAnalytics_data periodOpt L now k

/-- A one-entry ledger for the analytics witness: three Clutch bags
sold for 30 on January 12, 2025. -/
def analyticsWitnessSales : List SaleEntry :=
  [⟨1, "Bags", some "Clutch", 3, some 10, 30, .deduct, ⟨2025, 1, 12⟩⟩]

/-- C9 witness: for the week period ending on the sample date the
start date is seven days earlier and the bucket of January 12 holds
quantity 3 and revenue 30. -/
theorem C9_sales_analytics_witness :
    (salesAnalytics (some "week") analyticsWitnessSales sampleDate).startDate =
      subDays sampleDate 7 ∧
    lookupS "2025-1-12" (salesAnalytics (some "week") analyticsWitnessSales sampleDate).data =
      some ((3, 30) : Int × Int) :=
  ⟨(C9_sales_analytics (some "week") analyticsWitnessSales sampleDate).2.2.1 rfl,
   by
    rw [(C9_sales_analytics (some "week") analyticsWitnessSales sampleDate).2.2.2.2.2
      "2025-1-12"]
    decide⟩

end Inventory
